import Mathlib

/-!
Verification of the SyncRoom core: a shallow embedding of the clock-sync
engine (`src/syncroom/services/syncManager.ts`, class `SyncManager`) and of
the room coordination protocol (`src/syncroom/services/mockSocketService.ts`,
`MockSocket.connect`, `MockSocket.disconnect`, `handleServerEvent`).

Modelling conventions:
* JavaScript numbers are embedded as exact rationals (`ℚ`); the literal
  `0.15` is `3 / 20` and all divisions are exact.
* Nullable values (`number | null`, `string | null`) are `Option`s; the
  JavaScript falsiness of `0` and of the empty string is modelled explicitly
  where the source relies on it (`x || 0`, `x ? a : b`, `!adminId`).
* Effects are made explicit: each operation returns the new room state, a
  `saved` flag (`saveState` called), the list of broadcast events in emission
  order, and the list of database writes.  The fresh random user id and the
  response of `database.getPermissions` are explicit parameters of `connect`.
-/

namespace SyncRoom

/-- One clock-sync probe sample `{rtt, offset, receivedAt}` (syncManager.ts). -/
structure SyncSample where
  rtt : ℚ
  offset : ℚ
  receivedAt : ℚ
deriving DecidableEq, Repr

/-- The mutable fields of class `SyncManager` (syncManager.ts). -/
structure SyncState where
  samples : List SyncSample
  currentOffset : ℚ
  currentLatency : ℚ
  drift : ℚ
  jitter : ℚ
deriving DecidableEq, Repr

/-- The initial `SyncManager` state: empty window, all estimates 0. -/
def SyncState.start : SyncState := ⟨[], 0, 0, 0, 0⟩

/-- `WINDOW_SIZE = 20` (syncManager.ts line 11). -/
def WINDOW_SIZE : Nat := 20

/-- `samples.push(sample)` followed by `samples.shift()` when the window
exceeds `WINDOW_SIZE` (syncManager.ts lines 52-55). -/
def windowAfter (samples : List SyncSample) (sample : SyncSample) : List SyncSample :=
  let pushed := samples ++ [sample]
  if WINDOW_SIZE < pushed.length then pushed.tail else pushed

/-- `samples.reduce((min, s) => (s.rtt < min.rtt ? s : min), samples[0])`
(syncManager.ts line 60); the default is irrelevant since the list is
non-empty at the call site. -/
def minRttSample (l : List SyncSample) : SyncSample :=
  l.foldl (fun m s => if s.rtt < m.rtt then s else m) (l.headD ⟨0, 0, 0⟩)

/-- `SyncManager.processPong` (syncManager.ts lines 26-92).  The four
arguments are `t1 = clientSendTime`, `t2 = serverReceiveTime`,
`t3 = serverReplyTime`, `t4 = clientReceiveTime` (`Date.now()` at receipt,
passed explicitly).  The returned display stats (`toFixed` roundings) are
not part of the persistent state and are not modelled. -/
def processPong (st : SyncState) (t1 t2 t3 t4 : ℚ) : SyncState :=
  let networkDelay := (t4 - t1) - (t3 - t2)
  let rtt := max 0 networkDelay
  let rawOffset := ((t2 - t1) + (t3 - t4)) / 2
  let jitter1 :=
    match st.samples.getLast? with
    | some prev => st.jitter + (|rtt - prev.rtt| - st.jitter) / 16
    | none => st.jitter
  let sample : SyncSample := ⟨rtt, rawOffset, t4⟩
  let samples1 := windowAfter st.samples sample
  let bestSample := minRttSample samples1
  let targetOffset := bestSample.offset
  let drift1 :=
    if 2 ≤ samples1.length then
      let oldest := samples1.headD sample
      let newest := samples1.getLastD sample
      let timeSpanSec := (newest.receivedAt - oldest.receivedAt) / 1000
      if 1 < timeSpanSec then (newest.offset - oldest.offset) / timeSpanSec else st.drift
    else st.drift
  let currentOffset1 :=
    if st.currentOffset = 0 ∨ 500 < |targetOffset - st.currentOffset| then targetOffset
    else st.currentOffset + (targetOffset - st.currentOffset) * (3 / 20)
  ⟨samples1, currentOffset1, bestSample.rtt / 2, drift1, jitter1⟩

/-- Local times used by the verification probe runs: probe `n` is sent and
answered instantaneously at time `1000·(n+1)`. -/
def probeTimes (n : Nat) : ℚ := 1000 * (n + 1)

/-- Run `processPong` from the initial state over probes whose round-trip
times are prescribed by `f`: probe `n` has `t1 = t2 = t3 = probeTimes n`
and `t4 = probeTimes n + f n`, hence measured rtt `max 0 (f n)`. -/
def runWith (f : Nat → ℚ) : Nat → SyncState
  | 0 => SyncState.start
  | n + 1 =>
      processPong (runWith f n) (probeTimes n) (probeTimes n) (probeTimes n) (probeTimes n + f n)

/-- Round-trip times alternating between `r1` (even probes) and `r2`. -/
def altSeq (r1 r2 : ℚ) (k : Nat) : ℚ := if k % 2 = 0 then r1 else r2

/-- Convergence of a rational-valued sequence to a limit. -/
def ConvergesTo (f : Nat → ℚ) (L : ℚ) : Prop :=
  ∀ ε : ℚ, 0 < ε → ∃ N, ∀ n, N ≤ n → |f n - L| < ε

/-- The spec's smoothing rule for `processPong` read literally: on every
probe for which an offset has already been established (at least one earlier
probe was processed) and the min-filter target is within 500 ms of the
current offset, the offset is slewed by 15% towards the target. -/
def specSlewSmoothing : Prop :=
  ∀ (st : SyncState) (t1 t2 t3 t4 : ℚ),
    st.samples ≠ [] →
    |(minRttSample (processPong st t1 t2 t3 t4).samples).offset - st.currentOffset| ≤ 500 →
    (processPong st t1 t2 t3 t4).currentOffset =
      st.currentOffset +
        ((minRttSample (processPong st t1 t2 t3 t4).samples).offset - st.currentOffset) * (3 / 20)

/- ## Room state (types.ts) -/

/-- `PlaybackState` (types.ts). -/
inductive PlaybackState
  | PAUSED
  | PLAYING
  | BUFFERING
deriving DecidableEq, Repr

/-- `Track.type` (types.ts): `'stream' | 'shared-file'`. -/
inductive TrackType
  | stream
  | sharedFile
deriving DecidableEq, Repr

/-- `Track` (types.ts). -/
structure Track where
  id : String
  title : String
  artist : String
  url : String
  fileId : Option String := none
  duration : ℚ
  coverUrl : String
  type : TrackType
deriving DecidableEq, Repr

/-- `User` (types.ts). -/
structure User where
  id : String
  name : String
  isHost : Bool
  avatar : Option String := none
deriving DecidableEq, Repr

/-- `RoomState` (types.ts). -/
structure RoomState where
  id : String
  name : String
  users : List User
  queue : List Track
  currentTrackId : Option String
  playbackState : PlaybackState
  startAtServerTime : Option ℚ
  pausedAtPosition : Option ℚ
  adminId : String
  playAllowedUserIds : List String
deriving DecidableEq, Repr

/-- Database side effects issued by the server logic (database.ts calls). -/
inductive DbWrite
  | setPermission (roomId userId : String) (allowed : Bool)
  | upsertUser (u : User)
  | logPlay (roomId trackId userId : String)
  | addSong (t : Track) (uploadedBy : String)
deriving DecidableEq, Repr

/-- Broadcast events, in emission order (mockSocketService.ts). -/
inductive SEvent
  | roomUpdate (s : RoomState)
  | userJoined (u : User)
  | userLeft (u : User)
  | syncPong (clientSendTime serverReceiveTime serverReplyTime : ℚ)
  | playScheduled (trackId : Option String) (playAtServerTime : ℚ) (startOffset : ℚ)
  | pauseSync (pauseAtServerTime : ℚ) (position : ℚ)
  | seekSync (position : ℚ) (atServerTime : ℚ)
deriving DecidableEq, Repr

/-- Result of one serialized server operation: final state, whether
`saveState` ran, broadcast events in order, database writes in order. -/
structure StepResult where
  state : RoomState
  saved : Bool
  events : List SEvent
  dbWrites : List DbWrite
deriving DecidableEq, Repr

/-- An operation that fell through without mutating, persisting or emitting. -/
def noOp (s : RoomState) : StepResult := ⟨s, false, [], []⟩

/-- JS `x || 0` on a nullable number: `null` and `0` are falsy, give `0`. -/
def jsOrZero : Option ℚ → ℚ
  | none => 0
  | some v => if v = 0 then 0 else v

/-- `Array.from(new Set([...a, ...b]))`: union de-duplicated keeping
first-occurrence insertion order. -/
def jsSetUnion (a b : List String) : List String :=
  (a ++ b).foldl (fun acc x => if x ∈ acc then acc else acc ++ [x]) []

/-- Avatar URL built in `MockSocket.connect`. -/
def avatarUrl (userName : String) : String :=
  "https://api.dicebear.com/7.x/avataaars/svg?seed=" ++ userName

/-- `MockSocket.connect` (mockSocketService.ts lines 112-168), the state
mutation inside the lock.  `s` is the loaded room state, `userId` the fresh
random id, `dbAllowedIds` the response of `database.getPermissions(roomId)`
consulted on the re-join path. -/
def connect (s : RoomState) (userName userId : String) (dbAllowedIds : List String) :
    StepResult :=
  let isFirstUser := s.users.isEmpty
  let core : RoomState × List DbWrite :=
    if isFirstUser then
      ({ s with adminId := userId, playAllowedUserIds := [userId] },
       [.setPermission s.id userId true])
    else if s.adminId = "" then
      ({ s with adminId := userId, playAllowedUserIds := [userId] },
       [.setPermission s.id userId true])
    else
      ({ s with playAllowedUserIds := jsSetUnion s.playAllowedUserIds dbAllowedIds }, [])
  let s1 := core.1
  let newUser : User :=
    { id := userId, name := userName, isHost := userId == s1.adminId,
      avatar := some (avatarUrl userName) }
  let s2 := { s1 with users := s1.users ++ [newUser] }
  ⟨s2, true, [.roomUpdate s2, .userJoined newUser], core.2 ++ [.upsertUser newUser]⟩

/-- `MockSocket.disconnect` (mockSocketService.ts lines 170-207), the state
mutation inside the lock; `s` is the loaded room state. -/
def disconnect (s : RoomState) (userId : String) : StepResult :=
  let userLeaving := s.users.find? (fun u => u.id == userId)
  let users1 := s.users.filter (fun u => u.id != userId)
  let core : RoomState × List DbWrite :=
    if userId = s.adminId then
      match users1 with
      | newAdmin :: _ =>
          let s2 := { s with users := users1, adminId := newAdmin.id }
          if newAdmin.id ∈ s2.playAllowedUserIds then (s2, [])
          else ({ s2 with playAllowedUserIds := s2.playAllowedUserIds ++ [newAdmin.id] },
                [.setPermission s.id newAdmin.id true])
      | [] => ({ s with users := [], adminId := "", playAllowedUserIds := [] }, [])
    else ({ s with users := users1 }, [])
  let s3 := core.1
  let s4 := { s3 with
    playAllowedUserIds := s3.playAllowedUserIds.filter
      (fun id => s3.users.any (fun u => u.id == id) || id == s3.adminId) }
  let s5 := { s4 with
    users := s4.users.map (fun u => { u with isHost := u.id == s4.adminId }) }
  let evs := [SEvent.roomUpdate s5] ++
    (match userLeaving with
     | some u => [SEvent.userLeft u]
     | none => [])
  ⟨s5, true, evs, core.2⟩

/-- Commands accepted by `handleServerEvent`; every payload carries the
submitter `userId`. -/
inductive Cmd
  | syncPing (userId : String) (clientSendTime : ℚ)
  | grantPlay (userId targetUserId : String)
  | revokePlay (userId targetUserId : String)
  | play (userId : String)
  | playSpecificTrack (userId : String) (trackId : String)
  | pause (userId : String)
  | seek (userId : String) (position : ℚ)
  | addTrack (userId : String) (track : Track)
  | next (userId : String)
deriving DecidableEq, Repr

/-- `const currentIndex = queue.findIndex(t => t.id === currentTrackId)`
followed by indexing at `currentIndex + 1` (mockSocketService.ts 389-390):
JS `findIndex` yields `-1` when absent, so the successor index is `0` then. -/
def nextQueueIdx (s : RoomState) : Nat :=
  match s.queue.findIdx? (fun t => some t.id == s.currentTrackId) with
  | some i => i + 1
  | none => 0

/-- `handleServerEvent` (mockSocketService.ts lines 232-402).  `s` is the
state reloaded at the head of the handler, `serverNow` the value of
`MockSocket.getServerTime()`. -/
def handleServerEvent (s : RoomState) (serverNow : ℚ) (c : Cmd) : StepResult :=
  match c with
  | .syncPing _ clientSendTime =>
      ⟨s, false, [.syncPong clientSendTime serverNow serverNow], []⟩
  | .grantPlay userId targetUserId =>
      if s.adminId = userId then
        if targetUserId ∈ s.playAllowedUserIds then noOp s
        else
          let s1 := { s with playAllowedUserIds := s.playAllowedUserIds ++ [targetUserId] }
          ⟨s1, true, [.roomUpdate s1], [.setPermission s.id targetUserId true]⟩
      else noOp s
  | .revokePlay userId targetUserId =>
      if s.adminId = userId then
        if targetUserId = s.adminId then noOp s
        else
          let s1 := { s with
            playAllowedUserIds := s.playAllowedUserIds.filter (fun id => id != targetUserId) }
          ⟨s1, true, [.roomUpdate s1], [.setPermission s.id targetUserId false]⟩
      else noOp s
  | .play userId =>
      if userId ∈ s.playAllowedUserIds ∧ s.playbackState ≠ .PLAYING then
        let playAt := serverNow + 500
        let s1 := { s with
          playbackState := .PLAYING,
          startAtServerTime := some (playAt - jsOrZero s.pausedAtPosition * 1000) }
        let logs :=
          match s.currentTrackId with
          | some tid => if tid = "" then [] else [DbWrite.logPlay s.id tid userId]
          | none => []
        ⟨s1, true,
         [.roomUpdate s1, .playScheduled s.currentTrackId playAt (jsOrZero s.pausedAtPosition)],
         logs⟩
      else noOp s
  | .playSpecificTrack userId trackId =>
      if userId ∈ s.playAllowedUserIds ∧ s.queue.any (fun t => t.id == trackId) then
        let playAt := serverNow + 800
        let s1 := { s with
          currentTrackId := some trackId,
          playbackState := .PLAYING,
          pausedAtPosition := some 0,
          startAtServerTime := some playAt }
        ⟨s1, true, [.roomUpdate s1, .playScheduled (some trackId) playAt 0],
         [.logPlay s.id trackId userId]⟩
      else noOp s
  | .pause userId =>
      if userId ∈ s.playAllowedUserIds ∧ s.playbackState = .PLAYING then
        let pauseAt := serverNow
        let elapsed :=
          match s.startAtServerTime with
          | some t => if t = 0 then 0 else (pauseAt - t) / 1000
          | none => 0
        let s1 := { s with
          playbackState := .PAUSED,
          pausedAtPosition := some elapsed,
          startAtServerTime := none }
        ⟨s1, true, [.roomUpdate s1, .pauseSync pauseAt elapsed], []⟩
      else noOp s
  | .seek userId position =>
      if userId ∈ s.playAllowedUserIds then
        let seekAt := serverNow + 300
        let s1 := { s with pausedAtPosition := some position }
        let s2 :=
          if s1.playbackState = .PLAYING then
            { s1 with startAtServerTime := some (seekAt - position * 1000) }
          else s1
        ⟨s2, true, [.roomUpdate s2, .seekSync position seekAt], []⟩
      else noOp s
  | .addTrack userId track =>
      let s1 := { s with queue := s.queue ++ [track] }
      let dbw :=
        match track.type with
        | .sharedFile => [DbWrite.addSong track userId]
        | .stream => []
      ⟨s1, true, [.roomUpdate s1], dbw⟩
  | .next userId =>
      if userId ∈ s.playAllowedUserIds then
        match s.queue[nextQueueIdx s]? with
        | some nextTrack =>
            let s1 := { s with
              currentTrackId := some nextTrack.id,
              playbackState := .PAUSED,
              pausedAtPosition := some 0,
              startAtServerTime := none }
            ⟨s1, true, [.roomUpdate s1], []⟩
        | none => noOp s
      else noOp s

/-- The room-state invariant of the spec: whenever the users list is
non-empty, `adminId` is the id of a present user, `adminId` belongs to
`playAllowedUserIds`, and every permitted id is present or is the admin id. -/
def RoomInvariant (s : RoomState) : Prop :=
  s.users ≠ [] →
    (∃ u ∈ s.users, u.id = s.adminId) ∧
    s.adminId ∈ s.playAllowedUserIds ∧
    ∀ id ∈ s.playAllowedUserIds, (∃ u ∈ s.users, u.id = id) ∨ id = s.adminId

instance (s : RoomState) : Decidable (RoomInvariant s) := by
  unfold RoomInvariant; infer_instance

/-- The three operations on a room: a user joining, a user leaving, and a
serialized command. -/
inductive Op
  | join (userName userId : String) (dbAllowedIds : List String)
  | leave (userId : String)
  | cmd (serverNow : ℚ) (c : Cmd)

/-- Dispatch an operation to its embedding. -/
def applyOp (s : RoomState) : Op → StepResult
  | .join userName userId dbIds => connect s userName userId dbIds
  | .leave userId => disconnect s userId
  | .cmd now c => handleServerEvent s now c

/-- Side condition under which the invariant is actually preserved: the
persisted permissions merged on re-join mention only present users or the
admin, and `grantPlay` targets a present user or the admin. -/
def OpSafe (s : RoomState) : Op → Prop
  | .join _ _ dbIds => ∀ id ∈ dbIds, (∃ u ∈ s.users, u.id = id) ∨ id = s.adminId
  | .leave _ => True
  | .cmd _ (.grantPlay _ target) => (∃ u ∈ s.users, u.id = target) ∨ target = s.adminId
  | .cmd _ _ => True

instance (s : RoomState) : (op : Op) → Decidable (OpSafe s op)
  | .join _ _ dbIds =>
      inferInstanceAs (Decidable (∀ id ∈ dbIds, (∃ u ∈ s.users, u.id = id) ∨ id = s.adminId))
  | .leave _ => inferInstanceAs (Decidable True)
  | .cmd _ c =>
      match c with
      | .grantPlay _ target =>
          inferInstanceAs (Decidable ((∃ u ∈ s.users, u.id = target) ∨ target = s.adminId))
      | .syncPing _ _ => inferInstanceAs (Decidable True)
      | .revokePlay _ _ => inferInstanceAs (Decidable True)
      | .play _ => inferInstanceAs (Decidable True)
      | .playSpecificTrack _ _ => inferInstanceAs (Decidable True)
      | .pause _ => inferInstanceAs (Decidable True)
      | .seek _ _ => inferInstanceAs (Decidable True)
      | .addTrack _ _ => inferInstanceAs (Decidable True)
      | .next _ => inferInstanceAs (Decidable True)

/- ## Concrete rooms used as witnesses and counterexamples -/

/-- Concrete user Alice. -/
def uA : User := ⟨"alice", "Alice", true, none⟩

/-- Concrete user Bob. -/
def uB : User := ⟨"bob", "Bob", false, none⟩

/-- Concrete track one. -/
def tA : Track := ⟨"t1", "Neon Nights", "Synthwave Boy", "u1", none, 372, "c1", .stream⟩

/-- Concrete track two. -/
def tB : Track := ⟨"t2", "Second Song", "Someone", "u2", none, 200, "c2", .stream⟩

/-- A two-member paused room, Alice admin, both permitted. -/
def room0 : RoomState :=
  ⟨"R1", "Room R1", [uA, uB], [tA, tB], some "t1", .PAUSED, none, some 10, "alice",
   ["alice", "bob"]⟩

/-- A single-member room, Alice admin and sole permitted user. -/
def room1 : RoomState :=
  ⟨"R1", "Room R1", [uA], [tA, tB], some "t1", .PAUSED, none, some 0, "alice", ["alice"]⟩

/-- `room0` but with a `currentTrackId` that is absent from the queue. -/
def roomMissing : RoomState := { room0 with currentTrackId := some "zz" }

/-- `room0` but playing, with `startAtServerTime = 0` (reachable: a seek to
position `(now + 300) / 1000` while playing stores exactly `0`). -/
def roomStart0 : RoomState :=
  { room0 with playbackState := .PLAYING, startAtServerTime := some 0 }

/-- `room0` but playing with a regular start timestamp. -/
def roomPlaying : RoomState :=
  { room0 with playbackState := .PLAYING, startAtServerTime := some 2000 }

/-- The two-probe sync state of the C4 analysis: one probe with rtt 100 and
raw offset 0. -/
def c4s1 : SyncState := processPong SyncState.start 0 50 50 100

/-- A sync state with an established nonzero offset 50 and one sample. -/
def c4base : SyncState := ⟨[⟨100, 0, 100⟩], 50, 50, 0, 0⟩





/- ## Basic lemmas about the embedding -/

theorem jsOrZero_some (p : ℚ) : jsOrZero (some p) = p := by
  show (if p = 0 then 0 else p) = p
  split
  · rename_i h; exact h.symm
  · rfl

theorem processPong_samples (st : SyncState) (t1 t2 t3 t4 : ℚ) :
    (processPong st t1 t2 t3 t4).samples =
      windowAfter st.samples
        ⟨max 0 ((t4 - t1) - (t3 - t2)), ((t2 - t1) + (t3 - t4)) / 2, t4⟩ := rfl

theorem processPong_jitter (st : SyncState) (t1 t2 t3 t4 : ℚ) :
    (processPong st t1 t2 t3 t4).jitter =
      match st.samples.getLast? with
      | some prev =>
          st.jitter + (|max 0 ((t4 - t1) - (t3 - t2)) - prev.rtt| - st.jitter) / 16
      | none => st.jitter := rfl

theorem processPong_currentOffset (st : SyncState) (t1 t2 t3 t4 : ℚ) :
    (processPong st t1 t2 t3 t4).currentOffset =
      (if st.currentOffset = 0 ∨
          500 < |(minRttSample (processPong st t1 t2 t3 t4).samples).offset - st.currentOffset|
       then (minRttSample (processPong st t1 t2 t3 t4).samples).offset
       else st.currentOffset +
         ((minRttSample (processPong st t1 t2 t3 t4).samples).offset - st.currentOffset)
           * (3 / 20)) := rfl

/- ## C5: seek while playing -/

/-- C5: a `seek(position)` issued by a permitted user while the room is
PLAYING stores `startAtServerTime = (now + 300) - position * 1000`, so at
every instant `t` the elapsed position `(t - startAt)/1000` equals
`position + (t - (now + 300))/1000`, the seek target plus the seconds since
the scheduled execution instant. -/
theorem C5_seek_elapsed (s : RoomState) (now pos : ℚ) (uid : String)
    (hperm : uid ∈ s.playAllowedUserIds) (hplay : s.playbackState = .PLAYING) :
    (handleServerEvent s now (.seek uid pos)).state.startAtServerTime
        = some (now + 300 - pos * 1000) ∧
    ∀ t : ℚ, (t - (now + 300 - pos * 1000)) / 1000 = pos + (t - (now + 300)) / 1000 := by
  constructor
  · simp only [handleServerEvent, if_pos hperm]
    have h1 : ({ s with pausedAtPosition := some pos } : RoomState).playbackState
        = PlaybackState.PLAYING := hplay
    rw [if_pos h1]
  · intro t; ring

/-- Witness for C5 at a concrete room. -/
theorem C5_seek_elapsed_witness :
    (handleServerEvent roomPlaying 1000 (.seek "alice" 42)).state.startAtServerTime
        = some (1000 + 300 - 42 * 1000) ∧
    ∀ t : ℚ, (t - (1000 + 300 - 42 * 1000)) / 1000 = 42 + (t - (1000 + 300)) / 1000 :=
  C5_seek_elapsed roomPlaying 1000 42 "alice" (by decide) (by decide)

/- ## C6: play continuity -/

/-- C6: a `play` issued by a permitted user on a non-playing room with
`pausedAtPosition = some p` stores `startAtServerTime = (now + 500) - p*1000`
(lead `L = 500`), so the elapsed position at the scheduled instant
`playAt = now + 500` is exactly `p`; the emitted events are the room
snapshot followed by `play:scheduled` carrying that absolute `playAt` and
`startOffset = p`. -/
theorem C6_play_continuity (s : RoomState) (now : ℚ) (uid : String) (p : ℚ)
    (hperm : uid ∈ s.playAllowedUserIds) (hns : s.playbackState ≠ .PLAYING)
    (hp : s.pausedAtPosition = some p) :
    (handleServerEvent s now (.play uid)).state.startAtServerTime
        = some ((now + 500) - p * 1000) ∧
    ((now + 500) - ((now + 500) - p * 1000)) / 1000 = p ∧
    (handleServerEvent s now (.play uid)).events =
      [.roomUpdate (handleServerEvent s now (.play uid)).state,
       .playScheduled s.currentTrackId (now + 500) p] := by
  have hjs : jsOrZero s.pausedAtPosition = p := by rw [hp, jsOrZero_some]
  refine ⟨?_, by ring, ?_⟩
  · simp only [handleServerEvent, if_pos (And.intro hperm hns), hjs]
  · simp only [handleServerEvent, if_pos (And.intro hperm hns), hjs]

/-- Witness for C6 at a concrete room (`p = 10`). -/
theorem C6_play_continuity_witness :
    (handleServerEvent room0 1000 (.play "alice")).state.startAtServerTime
        = some ((1000 + 500) - 10 * 1000) ∧
    ((1000 + 500) - ((1000 + 500) - 10 * 1000)) / 1000 = (10 : ℚ) ∧
    (handleServerEvent room0 1000 (.play "alice")).events =
      [.roomUpdate (handleServerEvent room0 1000 (.play "alice")).state,
       .playScheduled room0.currentTrackId (1000 + 500) 10] :=
  C6_play_continuity room0 1000 "alice" 10 (by decide) (by decide) (by decide)

/- ## C9: play is a no-op when already playing or unauthorized -/

/-- C9: a `play` on an already-PLAYING room, or by a submitter outside
`playAllowedUserIds`, leaves the state untouched, persists nothing and emits
nothing. -/
theorem C9_play_noop (s : RoomState) (now : ℚ) (uid : String)
    (h : s.playbackState = .PLAYING ∨ uid ∉ s.playAllowedUserIds) :
    handleServerEvent s now (.play uid) = noOp s := by
  simp only [handleServerEvent]
  rw [if_neg]
  rintro ⟨hmem, hne⟩
  rcases h with h | h
  · exact hne h
  · exact h hmem

/-- Witness for C9: play on an already-playing room. -/
theorem C9_play_noop_witness :
    handleServerEvent roomPlaying 1000 (.play "alice") = noOp roomPlaying :=
  C9_play_noop roomPlaying 1000 "alice" (Or.inl (by decide))


/- ## C8: grantPlay / revokePlay admin-only and idempotent -/

/-- C8: `grantPlay` and `revokePlay` from a non-admin are complete no-ops;
`revokePlay` of the admin id is a no-op; granting an already-permitted
target is a no-op; a successful grant appends exactly the target id; a
revoke of an unpermitted target leaves the state unchanged; a successful
revoke removes exactly the target id. -/
theorem C8_grant_revoke (s : RoomState) (now : ℚ) (uid tgt : String) :
    (uid ≠ s.adminId →
       handleServerEvent s now (.grantPlay uid tgt) = noOp s ∧
       handleServerEvent s now (.revokePlay uid tgt) = noOp s) ∧
    (s.adminId = uid → tgt = s.adminId →
       handleServerEvent s now (.revokePlay uid tgt) = noOp s) ∧
    (s.adminId = uid → tgt ∈ s.playAllowedUserIds →
       handleServerEvent s now (.grantPlay uid tgt) = noOp s) ∧
    (s.adminId = uid → tgt ∉ s.playAllowedUserIds →
       (handleServerEvent s now (.grantPlay uid tgt)).state =
         { s with playAllowedUserIds := s.playAllowedUserIds ++ [tgt] }) ∧
    (s.adminId = uid → tgt ≠ s.adminId → tgt ∉ s.playAllowedUserIds →
       (handleServerEvent s now (.revokePlay uid tgt)).state = s) ∧
    (s.adminId = uid → tgt ≠ s.adminId →
       ∀ x, x ∈ (handleServerEvent s now (.revokePlay uid tgt)).state.playAllowedUserIds ↔
         (x ∈ s.playAllowedUserIds ∧ x ≠ tgt)) := by
  refine ⟨?_, ?_, ?_, ?_, ?_, ?_⟩
  · intro h
    constructor <;>
      · simp only [handleServerEvent]
        rw [if_neg (fun hh => h hh.symm)]
  · intro hA hT
    simp only [handleServerEvent]
    rw [if_pos hA, if_pos hT]
  · intro hA hT
    simp only [handleServerEvent]
    rw [if_pos hA, if_pos hT]
  · intro hA hT
    simp only [handleServerEvent]
    rw [if_pos hA, if_neg hT]
  · intro hA hT hM
    simp only [handleServerEvent]
    rw [if_pos hA, if_neg hT]
    have hf : s.playAllowedUserIds.filter (fun id => id != tgt) = s.playAllowedUserIds := by
      apply List.filter_eq_self.mpr
      intro a ha
      exact bne_iff_ne.mpr (fun he => hM (he ▸ ha))
    simp only [hf]
  · intro hA hT x
    simp only [handleServerEvent]
    rw [if_pos hA, if_neg hT]
    simp [List.mem_filter, bne_iff_ne]

/-- Witness for C8: grant of a new id appends it; non-admin grant is a no-op. -/
theorem C8_grant_revoke_witness :
    (handleServerEvent room0 0 (.grantPlay "alice" "carol")).state =
      { room0 with playAllowedUserIds := room0.playAllowedUserIds ++ ["carol"] } ∧
    handleServerEvent room0 0 (.grantPlay "bob" "carol") = noOp room0 :=
  ⟨(C8_grant_revoke room0 0 "alice" "carol").2.2.2.1 (by decide) (by decide),
   ((C8_grant_revoke room0 0 "bob" "carol").1 (by decide)).1⟩

/- ## C3: next -/

/-- C3 counterexample: in `roomMissing` the current track id `zz` is absent
from the queue and the submitter is permitted, yet `next` is not a no-op —
it moves `currentTrackId` to the first queue entry `t1` (JS `findIndex`
returns `-1`, so the code indexes `queue[0]`). -/
theorem C3_counterexample :
    roomMissing.currentTrackId = some "zz" ∧
    (∀ t ∈ roomMissing.queue, t.id ≠ "zz") ∧
    "alice" ∈ roomMissing.playAllowedUserIds ∧
    (handleServerEvent roomMissing 0 (.next "alice")).state.currentTrackId = some "t1" ∧
    (handleServerEvent roomMissing 0 (.next "alice")).state ≠ roomMissing := by decide

/-- C3 as amended: `next` from a permitted user advances to the queue entry
at index `(index of current track) + 1`, or at index `0` when the current
track id is missing from the queue; when that index is past the end of the
queue (in particular when the current track is the last entry) the command
is a complete no-op; a successful advance resets to PAUSED, position 0 and
clears `startAtServerTime`, persists, and emits only the room snapshot. -/
theorem C3_next_advance (s : RoomState) (now : ℚ) (uid : String)
    (hperm : uid ∈ s.playAllowedUserIds) :
    (∀ t, s.queue[nextQueueIdx s]? = some t →
       handleServerEvent s now (.next uid) =
         ⟨{ s with
             currentTrackId := some t.id,
             playbackState := .PAUSED,
             pausedAtPosition := some 0,
             startAtServerTime := none }, true,
          [.roomUpdate { s with
             currentTrackId := some t.id,
             playbackState := .PAUSED,
             pausedAtPosition := some 0,
             startAtServerTime := none }], []⟩) ∧
    (s.queue[nextQueueIdx s]? = none → handleServerEvent s now (.next uid) = noOp s) := by
  constructor
  · intro t ht
    simp only [handleServerEvent]
    rw [if_pos hperm, ht]
  · intro ht
    simp only [handleServerEvent]
    rw [if_pos hperm, ht]

/-- Witness for C3 as amended: in `room0` the current track `t1` is at index
0, so `next` advances to `t2`. -/
theorem C3_next_advance_witness :
    handleServerEvent room0 0 (.next "alice") =
      ⟨{ room0 with
          currentTrackId := some tB.id,
          playbackState := .PAUSED,
          pausedAtPosition := some 0,
          startAtServerTime := none }, true,
       [.roomUpdate { room0 with
          currentTrackId := some tB.id,
          playbackState := .PAUSED,
          pausedAtPosition := some 0,
          startAtServerTime := none }], []⟩ :=
  (C3_next_advance room0 0 "alice" (by decide)).1 tB (by decide)

/- ## C10: pause position, JS falsiness and the unclamped negative path -/

/-- C10 counterexample: with `startAtServerTime = 0` (a legal, reachable
timestamp) and a pause at `now = 5000`, the claimed formula
`(pauseAt - startAt)/1000` gives 5, but the code records 0 because the JS
conditional `startAtServerTime ? ... : 0` treats the number 0 as falsy. -/
theorem C10_counterexample :
    roomStart0.playbackState = .PLAYING ∧
    "alice" ∈ roomStart0.playAllowedUserIds ∧
    roomStart0.startAtServerTime = some 0 ∧
    (handleServerEvent roomStart0 5000 (.pause "alice")).state.pausedAtPosition = some 0 ∧
    ((5000 : ℚ) - 0) / 1000 = 5 ∧ ((0 : ℚ) ≠ 5) := by
  refine ⟨by decide, by decide, by decide, by decide, by norm_num, by norm_num⟩

/-- C10 as amended: a pause by a permitted user while PLAYING records
position `(pauseAt - startAt)/1000` exactly and unclamped whenever
`startAtServerTime` is a nonzero timestamp — in particular a negative
position when `pauseAt < startAt` — and a subsequent `play` feeds that value
unclamped into its own `startAt` computation; when `startAtServerTime` is
null or exactly 0 (both JS-falsy) the recorded position is 0. -/
theorem C10_pause_unclamped (s : RoomState) (now : ℚ) (uid : String)
    (hperm : uid ∈ s.playAllowedUserIds) (hplay : s.playbackState = .PLAYING) :
    ((s.startAtServerTime = none ∨ s.startAtServerTime = some 0) →
       (handleServerEvent s now (.pause uid)).state.pausedAtPosition = some 0) ∧
    (∀ st, s.startAtServerTime = some st → st ≠ 0 →
       (handleServerEvent s now (.pause uid)).state.pausedAtPosition
           = some ((now - st) / 1000) ∧
       (now < st → (now - st) / 1000 < 0) ∧
       ∀ now2 uid2, uid2 ∈ s.playAllowedUserIds →
         (handleServerEvent (handleServerEvent s now (.pause uid)).state now2
             (.play uid2)).state.startAtServerTime
           = some (now2 + 500 - ((now - st) / 1000) * 1000)) := by
  constructor
  · rintro (h | h)
    · simp only [handleServerEvent, if_pos (And.intro hperm hplay), h]
    · simp only [handleServerEvent, if_pos (And.intro hperm hplay), h]
      norm_num
  · intro st hst hst0
    refine ⟨?_, ?_, ?_⟩
    · simp only [handleServerEvent, if_pos (And.intro hperm hplay), hst, if_neg hst0]
    · intro hlt
      apply div_neg_of_neg_of_pos
      · exact sub_neg.mpr hlt
      · norm_num
    · intro now2 uid2 hperm2
      simp only [handleServerEvent, if_pos (And.intro hperm hplay), hst, if_neg hst0]
      have hne2 : PlaybackState.PAUSED ≠ PlaybackState.PLAYING := by decide
      rw [if_pos (And.intro hperm2 hne2)]
      simp [jsOrZero_some]

/-- Witness for C10 as amended: pause during the lead window records a
negative position and the follow-up play re-uses it unclamped. -/
theorem C10_pause_unclamped_witness :
    (handleServerEvent roomPlaying 1700 (.pause "alice")).state.pausedAtPosition
        = some ((1700 - 2000) / 1000) ∧
    ((1700 : ℚ) < 2000 → ((1700 : ℚ) - 2000) / 1000 < 0) ∧
    ∀ now2 uid2, uid2 ∈ roomPlaying.playAllowedUserIds →
      (handleServerEvent (handleServerEvent roomPlaying 1700 (.pause "alice")).state now2
          (.play uid2)).state.startAtServerTime
        = some (now2 + 500 - (((1700 : ℚ) - 2000) / 1000) * 1000) :=
  (C10_pause_unclamped roomPlaying 1700 "alice" (by decide) (by decide)).2 2000
    (by decide) (by decide)

/- ## Characterizations of disconnect -/

theorem disconnect_admin_state (s : RoomState) (uid : String) (hA : uid = s.adminId)
    (newAdmin : User) (rest : List User)
    (hrem : s.users.filter (fun u => u.id != uid) = newAdmin :: rest) :
    (disconnect s uid).state =
      { s with
        users := (newAdmin :: rest).map (fun u => { u with isHost := u.id == newAdmin.id }),
        adminId := newAdmin.id,
        playAllowedUserIds :=
          (if newAdmin.id ∈ s.playAllowedUserIds then s.playAllowedUserIds
           else s.playAllowedUserIds ++ [newAdmin.id]).filter
            (fun id => (newAdmin :: rest).any (fun u => u.id == id) || id == newAdmin.id) } := by
  simp only [disconnect, hrem, if_pos hA]
  by_cases hm : newAdmin.id ∈ s.playAllowedUserIds
  · simp only [if_pos hm]
  · simp only [if_neg hm]

theorem disconnect_admin_empty_state (s : RoomState) (uid : String) (hA : uid = s.adminId)
    (hrem : s.users.filter (fun u => u.id != uid) = []) :
    (disconnect s uid).state =
      { s with users := [], adminId := "", playAllowedUserIds := [] } := by
  simp [disconnect, hrem, if_pos hA]

theorem disconnect_nonadmin_state (s : RoomState) (uid : String) (hA : ¬ uid = s.adminId) :
    (disconnect s uid).state =
      { s with
        users := (s.users.filter (fun u => u.id != uid)).map
          (fun u => { u with isHost := u.id == s.adminId }),
        playAllowedUserIds := s.playAllowedUserIds.filter
          (fun id => (s.users.filter (fun u => u.id != uid)).any (fun u => u.id == id)
            || id == s.adminId) } := by
  simp only [disconnect, if_neg hA]

/- ## List helper lemmas -/

theorem mem_foldl_jsSet (l acc : List String) (x : String) :
    x ∈ l.foldl (fun acc2 y => if y ∈ acc2 then acc2 else acc2 ++ [y]) acc ↔
      x ∈ acc ∨ x ∈ l := by
  induction l generalizing acc with
  | nil => simp
  | cons y l ih =>
      simp only [List.foldl_cons]
      rw [ih]
      by_cases h : y ∈ acc
      · rw [if_pos h]
        constructor
        · rintro (h1 | h1)
          · exact Or.inl h1
          · exact Or.inr (List.mem_cons_of_mem _ h1)
        · rintro (h1 | h1)
          · exact Or.inl h1
          · rcases List.mem_cons.mp h1 with h2 | h2
            · exact Or.inl (h2 ▸ h)
            · exact Or.inr h2
      · rw [if_neg h]
        simp [List.mem_append, List.mem_cons, or_assoc]

theorem mem_jsSetUnion (a b : List String) (x : String) :
    x ∈ jsSetUnion a b ↔ x ∈ a ∨ x ∈ b := by
  unfold jsSetUnion
  rw [mem_foldl_jsSet]
  simp

theorem mem_map_id_iff (l : List User) (aid x : String) :
    (∃ u ∈ l.map (fun u => { u with isHost := u.id == aid }), u.id = x) ↔
      ∃ u ∈ l, u.id = x := by
  simp [List.mem_map]

theorem prune_pred_iff (users2 : List User) (aid x : String) :
    ((users2.any (fun u => u.id == x) || x == aid) = true) ↔
      (∃ u ∈ users2, u.id = x) ∨ x = aid := by
  simp [List.any_eq_true]

/- ## C7: admin departure -/

/-- C7: when the admin leaves a room with remaining members, the first
remaining member becomes admin and is in the permitted set; the departed
admin's id is removed from the permitted set; every remaining permitted id
is a present user or the new admin; and previously permitted ids of users
still present are retained. -/
theorem C7_admin_departure (s : RoomState) (uid : String) (newAdmin : User) (rest : List User)
    (hA : s.adminId = uid)
    (hrem : s.users.filter (fun u => u.id != uid) = newAdmin :: rest) :
    (disconnect s uid).state.adminId = newAdmin.id ∧
    newAdmin.id ∈ (disconnect s uid).state.playAllowedUserIds ∧
    uid ∉ (disconnect s uid).state.playAllowedUserIds ∧
    (∀ x ∈ (disconnect s uid).state.playAllowedUserIds,
       (∃ u ∈ newAdmin :: rest, u.id = x) ∨ x = newAdmin.id) ∧
    (∀ x ∈ s.playAllowedUserIds, (∃ u ∈ newAdmin :: rest, u.id = x) →
       x ∈ (disconnect s uid).state.playAllowedUserIds) := by
  have hidne : ∀ u ∈ newAdmin :: rest, u.id ≠ uid := by
    intro u hu
    have : u ∈ s.users.filter (fun u => u.id != uid) := hrem ▸ hu
    exact bne_iff_ne.mp (List.mem_filter.mp this).2
  rw [disconnect_admin_state s uid hA.symm newAdmin rest hrem]
  refine ⟨rfl, ?_, ?_, ?_, ?_⟩
  · apply List.mem_filter.mpr
    constructor
    · by_cases hm : newAdmin.id ∈ s.playAllowedUserIds
      · rw [if_pos hm]; exact hm
      · rw [if_neg hm]; exact List.mem_append_right _ (List.mem_singleton_self _)
    · simp
  · intro hx
    have h2 := (List.mem_filter.mp hx).2
    rcases (prune_pred_iff _ _ _).mp h2 with ⟨u, hu, hid⟩ | h3
    · exact hidne u hu hid
    · exact hidne newAdmin (List.mem_cons_self _ _) h3.symm
  · intro x hx
    exact (prune_pred_iff _ _ _).mp (List.mem_filter.mp hx).2
  · intro x hx hpres
    apply List.mem_filter.mpr
    refine ⟨?_, (prune_pred_iff _ _ _).mpr (Or.inl hpres)⟩
    by_cases hm : newAdmin.id ∈ s.playAllowedUserIds
    · rw [if_pos hm]; exact hx
    · rw [if_neg hm]; exact List.mem_append_left _ hx

/-- Witness for C7: Alice (admin) departs `room0`; Bob is promoted. -/
theorem C7_admin_departure_witness :
    (disconnect room0 "alice").state.adminId = uB.id ∧
    uB.id ∈ (disconnect room0 "alice").state.playAllowedUserIds ∧
    "alice" ∉ (disconnect room0 "alice").state.playAllowedUserIds ∧
    (∀ x ∈ (disconnect room0 "alice").state.playAllowedUserIds,
       (∃ u ∈ uB :: ([] : List User), u.id = x) ∨ x = uB.id) ∧
    (∀ x ∈ room0.playAllowedUserIds, (∃ u ∈ uB :: ([] : List User), u.id = x) →
       x ∈ (disconnect room0 "alice").state.playAllowedUserIds) :=
  C7_admin_departure room0 "alice" uB [] (by decide) (by decide)

/- ## C1: the room-state invariant -/

theorem roomInvariant_of_fields {s s1 : RoomState} (hu : s1.users = s.users)
    (ha : s1.adminId = s.adminId) (hp : s1.playAllowedUserIds = s.playAllowedUserIds)
    (h : RoomInvariant s) : RoomInvariant s1 := by
  unfold RoomInvariant at h ⊢
  rw [hu, ha, hp]
  exact h

theorem connect_preserves_invariant (s : RoomState) (userName userId : String)
    (dbIds : List String) (hInv : RoomInvariant s)
    (hSafe : ∀ x ∈ dbIds, (∃ u ∈ s.users, u.id = x) ∨ x = s.adminId) :
    RoomInvariant (connect s userName userId dbIds).state := by
  by_cases hE : s.users.isEmpty
  · simp only [connect, if_pos hE]
    intro _
    refine ⟨⟨_, List.mem_append_right _ (List.mem_singleton_self _), rfl⟩,
      List.mem_singleton_self _, ?_⟩
    intro x hx
    exact Or.inr (List.mem_singleton.mp hx)
  · by_cases hAdm : s.adminId = ""
    · simp only [connect, if_neg hE, if_pos hAdm]
      intro _
      refine ⟨⟨_, List.mem_append_right _ (List.mem_singleton_self _), rfl⟩,
        List.mem_singleton_self _, ?_⟩
      intro x hx
      exact Or.inr (List.mem_singleton.mp hx)
    · simp only [connect, if_neg hE, if_neg hAdm]
      intro _
      have hne : s.users ≠ [] := by
        intro h
        rw [h] at hE
        exact hE rfl
      obtain ⟨⟨ua, hua, huaid⟩, hmem, hall⟩ := hInv hne
      refine ⟨⟨ua, List.mem_append_left _ hua, huaid⟩,
        (mem_jsSetUnion _ _ _).mpr (Or.inl hmem), ?_⟩
      intro x hx
      rcases (mem_jsSetUnion _ _ _).mp hx with h | h
      · rcases hall x h with ⟨u, hu, hid⟩ | h2
        · exact Or.inl ⟨u, List.mem_append_left _ hu, hid⟩
        · exact Or.inr h2
      · rcases hSafe x h with ⟨u, hu, hid⟩ | h2
        · exact Or.inl ⟨u, List.mem_append_left _ hu, hid⟩
        · exact Or.inr h2

theorem disconnect_preserves_invariant (s : RoomState) (uid : String)
    (hInv : RoomInvariant s) : RoomInvariant (disconnect s uid).state := by
  by_cases hA : uid = s.adminId
  · cases hrem : s.users.filter (fun u => u.id != uid) with
    | nil =>
        rw [disconnect_admin_empty_state s uid hA hrem]
        intro hne
        exact absurd rfl hne
    | cons newAdmin rest =>
        rw [disconnect_admin_state s uid hA newAdmin rest hrem]
        intro _
        refine ⟨?_, ?_, ?_⟩
        · exact (mem_map_id_iff _ _ _).mpr ⟨newAdmin, List.mem_cons_self _ _, rfl⟩
        · apply List.mem_filter.mpr
          refine ⟨?_, by simp⟩
          by_cases hm : newAdmin.id ∈ s.playAllowedUserIds
          · rw [if_pos hm]; exact hm
          · rw [if_neg hm]; exact List.mem_append_right _ (List.mem_singleton_self _)
        · intro x hx
          rcases (prune_pred_iff _ _ _).mp (List.mem_filter.mp hx).2 with ⟨u, hu, hid⟩ | h3
          · exact Or.inl ((mem_map_id_iff _ _ _).mpr ⟨u, hu, hid⟩)
          · exact Or.inr h3
  · rw [disconnect_nonadmin_state s uid hA]
    intro hne
    have hne2 : s.users ≠ [] := by
      intro h
      apply hne
      rw [h]
      rfl
    obtain ⟨⟨ua, hua, huaid⟩, hmem, hall⟩ := hInv hne2
    refine ⟨?_, ?_, ?_⟩
    · apply (mem_map_id_iff _ _ _).mpr
      refine ⟨ua, List.mem_filter.mpr ⟨hua, ?_⟩, huaid⟩
      exact bne_iff_ne.mpr (fun h => hA (huaid ▸ h).symm)
    · exact List.mem_filter.mpr ⟨hmem, (prune_pred_iff _ _ _).mpr (Or.inr rfl)⟩
    · intro x hx
      rcases (prune_pred_iff _ _ _).mp (List.mem_filter.mp hx).2 with ⟨u, hu, hid⟩ | h3
      · exact Or.inl ((mem_map_id_iff _ _ _).mpr ⟨u, hu, hid⟩)
      · exact Or.inr h3

theorem handle_preserves_invariant (s : RoomState) (now : ℚ) (c : Cmd)
    (hInv : RoomInvariant s)
    (hSafe : ∀ u tgt, c = .grantPlay u tgt → (∃ x ∈ s.users, x.id = tgt) ∨ tgt = s.adminId) :
    RoomInvariant (handleServerEvent s now c).state := by
  cases c with
  | syncPing u t => exact hInv
  | grantPlay u tgt =>
      by_cases hA : s.adminId = u
      · by_cases hT : tgt ∈ s.playAllowedUserIds
        · simp only [handleServerEvent, if_pos hA, if_pos hT]
          exact hInv
        · simp only [handleServerEvent, if_pos hA, if_neg hT]
          intro hne
          obtain ⟨hpres, hmem, hall⟩ := hInv hne
          refine ⟨hpres, List.mem_append_left _ hmem, ?_⟩
          intro x hx
          rcases List.mem_append.mp hx with h | h
          · exact hall x h
          · have hx2 : x = tgt := List.mem_singleton.mp h
            subst hx2
            exact hSafe u x rfl
      · simp only [handleServerEvent, if_neg hA]
        exact hInv
  | revokePlay u tgt =>
      by_cases hA : s.adminId = u
      · by_cases hT : tgt = s.adminId
        · simp only [handleServerEvent, if_pos hA, if_pos hT]
          exact hInv
        · simp only [handleServerEvent, if_pos hA, if_neg hT]
          intro hne
          obtain ⟨hpres, hmem, hall⟩ := hInv hne
          refine ⟨hpres, ?_, ?_⟩
          · exact List.mem_filter.mpr ⟨hmem, bne_iff_ne.mpr (fun h => hT h.symm)⟩
          · intro x hx
            exact hall x (List.mem_filter.mp hx).1
      · simp only [handleServerEvent, if_neg hA]
        exact hInv
  | play u =>
      by_cases hc : u ∈ s.playAllowedUserIds ∧ s.playbackState ≠ .PLAYING
      · simp only [handleServerEvent, if_pos hc]
        exact roomInvariant_of_fields rfl rfl rfl hInv
      · simp only [handleServerEvent, if_neg hc]
        exact hInv
  | playSpecificTrack u tid =>
      by_cases hc : u ∈ s.playAllowedUserIds ∧ s.queue.any (fun t => t.id == tid)
      · simp only [handleServerEvent, if_pos hc]
        exact roomInvariant_of_fields rfl rfl rfl hInv
      · simp only [handleServerEvent, if_neg hc]
        exact hInv
  | pause u =>
      by_cases hc : u ∈ s.playAllowedUserIds ∧ s.playbackState = .PLAYING
      · simp only [handleServerEvent, if_pos hc]
        exact roomInvariant_of_fields rfl rfl rfl hInv
      · simp only [handleServerEvent, if_neg hc]
        exact hInv
  | seek u pos =>
      by_cases hc : u ∈ s.playAllowedUserIds
      · simp only [handleServerEvent, if_pos hc]
        by_cases hp : s.playbackState = PlaybackState.PLAYING
        · rw [if_pos hp]
          exact roomInvariant_of_fields rfl rfl rfl hInv
        · rw [if_neg hp]
          exact roomInvariant_of_fields rfl rfl rfl hInv
      · simp only [handleServerEvent, if_neg hc]
        exact hInv
  | addTrack u track =>
      simp only [handleServerEvent]
      exact roomInvariant_of_fields rfl rfl rfl hInv
  | next u =>
      by_cases hc : u ∈ s.playAllowedUserIds
      · cases hq : s.queue[nextQueueIdx s]? with
        | some t =>
            simp only [handleServerEvent, if_pos hc, hq]
            exact roomInvariant_of_fields rfl rfl rfl hInv
        | none =>
            simp only [handleServerEvent, if_pos hc, hq]
            exact hInv
      · simp only [handleServerEvent, if_neg hc]
        exact hInv

/-- C1 counterexample: in `room1` (Alice alone, admin, sole permitted user)
the invariant holds, but after the admin grants play permission to a user id
that is not present in the room (`ghost`) the invariant is violated: the
permitted set now contains an id that is absent from `users` and differs
from the admin id.  `grantPlay` performs no presence check on its target. -/
theorem C1_counterexample :
    RoomInvariant room1 ∧
    ¬ RoomInvariant (handleServerEvent room1 0 (.grantPlay "alice" "ghost")).state := by
  constructor
  · decide
  · decide

/-- C1 as amended: the invariant is preserved by `leave` and by every
command, and by `join` provided the persisted permissions merged on the
re-join path mention only present users or the admin — with the sole
exception that `grantPlay` must target a present user or the admin id
(the code performs no such validation). -/
theorem C1_invariant_preservation (s : RoomState) (op : Op)
    (hInv : RoomInvariant s) (hSafe : OpSafe s op) :
    RoomInvariant (applyOp s op).state := by
  cases op with
  | join userName userId dbIds =>
      exact connect_preserves_invariant s userName userId dbIds hInv hSafe
  | leave uid =>
      exact disconnect_preserves_invariant s uid hInv
  | cmd now c =>
      apply handle_preserves_invariant s now c hInv
      intro u tgt hc
      cases c with
      | grantPlay u2 tgt2 =>
          cases hc
          exact hSafe
      | syncPing u2 t2 => exact Cmd.noConfusion hc
      | revokePlay u2 tgt2 => exact Cmd.noConfusion hc
      | play u2 => exact Cmd.noConfusion hc
      | playSpecificTrack u2 t2 => exact Cmd.noConfusion hc
      | pause u2 => exact Cmd.noConfusion hc
      | seek u2 p2 => exact Cmd.noConfusion hc
      | addTrack u2 t2 => exact Cmd.noConfusion hc
      | next u2 => exact Cmd.noConfusion hc

/-- Witness for C1 as amended: a join with consistent persisted permissions,
a leave, and a safe grant, all from concrete invariant-satisfying rooms. -/
theorem C1_invariant_preservation_witness :
    (RoomInvariant room0 ∧ OpSafe room0 (.cmd 0 (.grantPlay "alice" "bob")) ∧
       RoomInvariant (applyOp room0 (.cmd 0 (.grantPlay "alice" "bob"))).state) ∧
    (RoomInvariant room0 ∧ OpSafe room0 (.leave "alice") ∧
       RoomInvariant (applyOp room0 (.leave "alice")).state) ∧
    (RoomInvariant room0 ∧ OpSafe room0 (.join "Carol" "carol" ["alice"]) ∧
       RoomInvariant (applyOp room0 (.join "Carol" "carol" ["alice"])).state) := by
  refine ⟨⟨by decide, by decide, ?_⟩, ⟨by decide, by decide, ?_⟩, ⟨by decide, by decide, ?_⟩⟩
  · exact C1_invariant_preservation room0 (.cmd 0 (.grantPlay "alice" "bob"))
      (by decide) (by decide)
  · exact C1_invariant_preservation room0 (.leave "alice") (by decide) (by decide)
  · exact C1_invariant_preservation room0 (.join "Carol" "carol" ["alice"])
      (by decide) (by decide)

/- ## C4: offset smoothing -/

theorem minRtt_foldl (l : List SyncSample) (d : SyncSample) :
    (l.foldl (fun m s => if s.rtt < m.rtt then s else m) d = d ∨
       l.foldl (fun m s => if s.rtt < m.rtt then s else m) d ∈ l) ∧
    (l.foldl (fun m s => if s.rtt < m.rtt then s else m) d).rtt ≤ d.rtt ∧
    ∀ x ∈ l, (l.foldl (fun m s => if s.rtt < m.rtt then s else m) d).rtt ≤ x.rtt := by
  induction l generalizing d with
  | nil =>
      refine ⟨Or.inl rfl, le_refl _, ?_⟩
      intro x hx
      cases hx
  | cons a l ih =>
      simp only [List.foldl_cons]
      obtain ⟨hmem, hle, hall⟩ := ih (if a.rtt < d.rtt then a else d)
      have hd2 : (if a.rtt < d.rtt then a else d).rtt ≤ d.rtt ∧
          (if a.rtt < d.rtt then a else d).rtt ≤ a.rtt := by
        split
        · rename_i hlt
          exact ⟨le_of_lt hlt, le_refl _⟩
        · rename_i hlt
          exact ⟨le_refl _, le_of_not_lt hlt⟩
      refine ⟨?_, le_trans hle hd2.1, ?_⟩
      · rcases hmem with h | h
        · rw [h]
          split
          · exact Or.inr (List.mem_cons_self _ _)
          · exact Or.inl rfl
        · exact Or.inr (List.mem_cons_of_mem _ h)
      · intro x hx
        rcases List.mem_cons.mp hx with h | h
        · rw [h]
          exact le_trans hle hd2.2
        · exact hall x h

theorem minRttSample_spec (l : List SyncSample) (hne : l ≠ []) :
    minRttSample l ∈ l ∧ ∀ x ∈ l, (minRttSample l).rtt ≤ x.rtt := by
  cases l with
  | nil => exact absurd rfl hne
  | cons a l =>
      unfold minRttSample
      simp only [List.headD_cons]
      obtain ⟨hmem, hle, hall⟩ := minRtt_foldl (a :: l) a
      refine ⟨?_, hall⟩
      rcases hmem with h | h
      · rw [h]
        exact List.mem_cons_self _ _
      · exact h

theorem windowAfter_ne_nil (l : List SyncSample) (s : SyncSample) : windowAfter l s ≠ [] := by
  show (if WINDOW_SIZE < (l ++ [s]).length then (l ++ [s]).tail else (l ++ [s])) ≠ []
  by_cases h : WINDOW_SIZE < (l ++ [s]).length
  · rw [if_pos h]
    intro hnil
    have h2 := congrArg List.length hnil
    rw [List.length_tail] at h2
    simp only [List.length_append, List.length_cons, List.length_nil] at h2 h
    unfold WINDOW_SIZE at h
    omega
  · rw [if_neg h]
    intro hnil
    simp at hnil

theorem processPong_samples_ne_nil (st : SyncState) (t1 t2 t3 t4 : ℚ) :
    (processPong st t1 t2 t3 t4).samples ≠ [] := by
  rw [processPong_samples]
  apply windowAfter_ne_nil

/-- C4 as amended: on every probe, the new offset snaps to the min-rtt
target exactly when the previous offset is `0` (the code's proxy for "not
yet established" — even when a probe already established an offset of
exactly 0) or the target is more than 500 ms away; in all other cases it
slews by 15% towards the target; and the target really is the offset of a
minimal-rtt sample of the post-probe window. -/
theorem C4_offset_smoothing (st : SyncState) (t1 t2 t3 t4 : ℚ) :
    ((st.currentOffset = 0 ∨
        500 < |(minRttSample (processPong st t1 t2 t3 t4).samples).offset - st.currentOffset|) →
      (processPong st t1 t2 t3 t4).currentOffset =
        (minRttSample (processPong st t1 t2 t3 t4).samples).offset) ∧
    (st.currentOffset ≠ 0 →
      |(minRttSample (processPong st t1 t2 t3 t4).samples).offset - st.currentOffset| ≤ 500 →
      (processPong st t1 t2 t3 t4).currentOffset =
        st.currentOffset +
          ((minRttSample (processPong st t1 t2 t3 t4).samples).offset - st.currentOffset)
            * (3 / 20)) ∧
    minRttSample (processPong st t1 t2 t3 t4).samples ∈ (processPong st t1 t2 t3 t4).samples ∧
    (∀ x ∈ (processPong st t1 t2 t3 t4).samples,
       (minRttSample (processPong st t1 t2 t3 t4).samples).rtt ≤ x.rtt) := by
  obtain ⟨hmem, hmin⟩ :=
    minRttSample_spec (processPong st t1 t2 t3 t4).samples (processPong_samples_ne_nil st t1 t2 t3 t4)
  refine ⟨?_, ?_, hmem, hmin⟩
  · intro h
    rw [processPong_currentOffset, if_pos h]
  · intro h1 h2
    rw [processPong_currentOffset, if_neg]
    rintro (h | h)
    · exact h1 h
    · exact absurd h (not_lt.mpr h2)

theorem c4s1_eq : c4s1 = ⟨[⟨100, 0, 100⟩], 0, 50, 0, 0⟩ := by
  unfold c4s1 processPong SyncState.start windowAfter minRttSample WINDOW_SIZE
  norm_num

theorem c4s2_eq :
    processPong c4s1 1000 1105 1105 1010 =
      ⟨[⟨100, 0, 100⟩, ⟨10, 100, 1010⟩], 100, 5, 0, 45 / 8⟩ := by
  rw [c4s1_eq]
  unfold processPong windowAfter minRttSample WINDOW_SIZE
  norm_num [List.foldl]

theorem c4min_eq :
    minRttSample (processPong c4s1 1000 1105 1105 1010).samples = ⟨10, 100, 1010⟩ := by
  rw [c4s2_eq]
  unfold minRttSample
  norm_num [List.foldl]

/-- C4 counterexample: after a first probe establishing raw offset 0 (state
`c4s1`), a second probe has min-rtt target 100, within 500 ms of the current
offset, yet the code snaps to 100 instead of slewing to 15, because its
"not yet established" test is `currentOffset === 0`. -/
theorem C4_counterexample : ¬ specSlewSmoothing := by
  intro h
  have h1 : c4s1.samples ≠ [] := by
    rw [c4s1_eq]
    simp
  have h2 : |(minRttSample (processPong c4s1 1000 1105 1105 1010).samples).offset
      - c4s1.currentOffset| ≤ 500 := by
    rw [c4min_eq, c4s1_eq]
    norm_num
  have h3 := h c4s1 1000 1105 1105 1010 h1 h2
  rw [c4min_eq, c4s1_eq] at h3
  rw [show (processPong ⟨[⟨100, 0, 100⟩], 0, 50, 0, 0⟩ 1000 1105 1105 1010).currentOffset = 100
    from by rw [← c4s1_eq, c4s2_eq]] at h3
  norm_num at h3

theorem c4base_min :
    minRttSample (processPong c4base 2000 2105 2105 2010).samples = ⟨10, 100, 2010⟩ := by
  rw [processPong_samples]
  unfold c4base windowAfter minRttSample WINDOW_SIZE
  norm_num [List.foldl]

/-- Witness for C4 as amended: the two-probe run snaps (offset was 0), and a
state with established nonzero offset 50 slews to `50 + (100-50)·0.15`. -/
theorem C4_offset_smoothing_witness :
    (processPong c4s1 1000 1105 1105 1010).currentOffset =
      (minRttSample (processPong c4s1 1000 1105 1105 1010).samples).offset ∧
    (processPong c4base 2000 2105 2105 2010).currentOffset =
      c4base.currentOffset +
        ((minRttSample (processPong c4base 2000 2105 2105 2010).samples).offset -
          c4base.currentOffset) * (3 / 20) :=
  ⟨(C4_offset_smoothing c4s1 1000 1105 1105 1010).1 (Or.inl (by rw [c4s1_eq])),
   (C4_offset_smoothing c4base 2000 2105 2105 2010).2.1 (by norm_num [c4base])
     (by rw [c4base_min]; norm_num [c4base])⟩

/- ## C2: jitter -/

theorem pow_le_bound (n : Nat) : ((15:ℚ)/16)^n ≤ 15/(15+n) := by
  have hb := one_add_mul_le_pow (by norm_num : (-2:ℚ) ≤ 1/15) n
  have h1 : ((15+n : ℚ))/15 ≤ (16/15)^n := by
    calc ((15+n:ℚ))/15 = 1 + n * (1/15) := by ring
    _ ≤ (1 + 1/15)^n := hb
    _ = (16/15)^n := by norm_num
  have h2 : ((15:ℚ)/16)^n = ((16/15)^n)⁻¹ := by
    rw [← inv_pow]
    norm_num
  rw [h2]
  calc ((16/15:ℚ)^n)⁻¹ ≤ ((15+n:ℚ)/15)⁻¹ := inv_anti₀ (by positivity) h1
  _ = 15/(15+n) := by rw [inv_div]

theorem windowAfter_getLast (l : List SyncSample) (s : SyncSample) :
    (windowAfter l s).getLast? = some s := by
  show (if WINDOW_SIZE < (l ++ [s]).length then (l ++ [s]).tail else (l ++ [s])).getLast?
      = some s
  by_cases h : WINDOW_SIZE < (l ++ [s]).length
  · rw [if_pos h]
    cases l with
    | nil => simp [WINDOW_SIZE] at h
    | cons a l2 =>
        rw [List.cons_append, List.tail_cons]
        exact List.getLast?_concat _
  · rw [if_neg h]
    exact List.getLast?_concat _

theorem runWith_succ_samples_getLast (f : Nat → ℚ) (hf : ∀ k, 0 ≤ f k) (n : Nat) :
    ∃ off ra, (runWith f (n+1)).samples.getLast? = some ⟨f n, off, ra⟩ := by
  refine ⟨((probeTimes n - probeTimes n) + (probeTimes n - (probeTimes n + f n))) / 2,
    probeTimes n + f n, ?_⟩
  show (processPong (runWith f n) (probeTimes n) (probeTimes n) (probeTimes n)
      (probeTimes n + f n)).samples.getLast? = _
  rw [processPong_samples, windowAfter_getLast,
    show (probeTimes n + f n - probeTimes n) - (probeTimes n - probeTimes n) = f n from by ring,
    max_eq_right (hf n)]

theorem runWith_jitter_one (f : Nat → ℚ) : (runWith f 1).jitter = 0 := rfl

theorem runWith_jitter_succ (f : Nat → ℚ) (hf : ∀ k, 0 ≤ f k) (n : Nat) :
    (runWith f (n+2)).jitter =
      (runWith f (n+1)).jitter + (|f (n+1) - f n| - (runWith f (n+1)).jitter) / 16 := by
  obtain ⟨off, ra, hlast⟩ := runWith_succ_samples_getLast f hf n
  show (processPong (runWith f (n+1)) (probeTimes (n+1)) (probeTimes (n+1)) (probeTimes (n+1))
      (probeTimes (n+1) + f (n+1))).jitter = _
  rw [processPong_jitter]
  simp only [hlast]
  rw [show (probeTimes (n+1) + f (n+1) - probeTimes (n+1))
        - (probeTimes (n+1) - probeTimes (n+1)) = f (n+1) from by ring,
    max_eq_right (hf (n+1))]

theorem altSeq_nonneg (r1 r2 : ℚ) (h1 : 0 ≤ r1) (h2 : 0 ≤ r2) (k : Nat) :
    0 ≤ altSeq r1 r2 k := by
  unfold altSeq
  split <;> assumption

theorem altSeq_diff (r1 r2 : ℚ) (n : Nat) :
    |altSeq r1 r2 (n+1) - altSeq r1 r2 n| = |r1 - r2| := by
  unfold altSeq
  by_cases h : n % 2 = 0
  · rw [if_pos h, if_neg (by omega)]
    exact abs_sub_comm r2 r1
  · rw [if_neg h, if_pos (by omega)]

theorem alt_jitter_closed (r1 r2 : ℚ) (h1 : 0 ≤ r1) (h2 : 0 ≤ r2) (n : Nat) :
    (runWith (altSeq r1 r2) (n+1)).jitter = |r1 - r2| * (1 - (15/16)^n) := by
  induction n with
  | zero =>
      rw [runWith_jitter_one]
      norm_num
  | succ m ih =>
      rw [runWith_jitter_succ _ (altSeq_nonneg r1 r2 h1 h2) m, ih, altSeq_diff]
      rw [pow_succ]
      ring

theorem const_jitter (r : ℚ) (hr : 0 ≤ r) (n : Nat) :
    (runWith (fun _ => r) n).jitter = 0 := by
  induction n with
  | zero => rfl
  | succ m ih =>
      cases m with
      | zero => exact runWith_jitter_one _
      | succ k =>
          rw [runWith_jitter_succ _ (fun _ => hr) k, ih]
          simp

theorem const_jitter_converges (r : ℚ) (hr : 0 ≤ r) :
    ConvergesTo (fun n => (runWith (fun _ => r) n).jitter) 0 := by
  intro ε hε
  refine ⟨0, fun n _ => ?_⟩
  simp only
  rw [const_jitter r hr n]
  simpa using hε

theorem alt_jitter_converges (r1 r2 : ℚ) (h1 : 0 ≤ r1) (h2 : 0 ≤ r2) :
    ConvergesTo (fun n => (runWith (altSeq r1 r2) n).jitter) |r1 - r2| := by
  intro ε hε
  obtain ⟨M, hM⟩ := exists_nat_gt (15 * |r1 - r2| / ε)
  refine ⟨M + 1, fun n hn => ?_⟩
  obtain ⟨m, rfl⟩ : ∃ m, n = m + 1 := ⟨n - 1, by omega⟩
  have hMm : (M : ℚ) ≤ m := by
    have h : M ≤ m := by omega
    exact_mod_cast h
  simp only
  rw [alt_jitter_closed r1 r2 h1 h2 m]
  have hD : 0 ≤ |r1 - r2| := abs_nonneg _
  have habs : abs (|r1 - r2| * (1 - (15/16)^m) - |r1 - r2|) = |r1 - r2| * (15/16)^m := by
    rw [show |r1 - r2| * (1 - (15/16)^m) - |r1 - r2| = -(|r1 - r2| * (15/16)^m) from by ring,
      abs_neg, abs_of_nonneg (by positivity)]
  rw [habs]
  have step1 : |r1 - r2| * (15/16)^m ≤ |r1 - r2| * (15/(15+(m:ℚ))) :=
    mul_le_mul_of_nonneg_left (pow_le_bound m) hD
  have step2 : |r1 - r2| * (15/(15+(m:ℚ))) < ε := by
    rw [← mul_div_assoc, div_lt_iff₀ (by positivity : (0:ℚ) < 15 + m)]
    have hM2 : 15 * |r1 - r2| < ε * M := by
      rw [div_lt_iff₀ hε] at hM
      linarith
    calc |r1 - r2| * 15 = 15 * |r1 - r2| := by ring
    _ < ε * M := hM2
    _ ≤ ε * (15 + m) := by
        apply mul_le_mul_of_nonneg_left _ (le_of_lt hε)
        linarith
  exact lt_of_le_of_lt step1 step2

/-- C2 counterexample: for the alternating round-trip times 0, 16 the claimed
EWMA fixed point is `|r1-r2|·16/17 = 256/17`, but the jitter sequence does
not converge to it — from probe 532 on it stays at least 1/2 above 256/17
(its true limit is `|r1-r2| = 16`). -/
theorem C2_counterexample :
    ¬ ConvergesTo (fun n => (runWith (altSeq 0 16) n).jitter) (|(0:ℚ) - 16| * 16 / 17) := by
  intro h
  obtain ⟨N, hN⟩ := h (1/2) (by norm_num)
  obtain ⟨m, hm⟩ : ∃ m, max N 531 = m + 1 := by
    refine ⟨max N 531 - 1, ?_⟩
    have h531 : 531 ≤ max N 531 := le_max_right _ _
    omega
  have hn := hN (m + 1) (by rw [← hm]; exact le_max_left _ _)
  simp only at hn
  rw [alt_jitter_closed 0 16 (by norm_num) (by norm_num) m] at hn
  have hm530 : 530 ≤ m := by
    have h531 : 531 ≤ max N 531 := le_max_right _ _
    omega
  have hb2 : ((15:ℚ)/16)^m ≤ 15/545 := by
    refine le_trans (pow_le_bound m) ?_
    rw [div_le_div_iff₀ (by positivity) (by norm_num)]
    have hc : (530:ℚ) ≤ m := by exact_mod_cast hm530
    linarith
  rw [show |(0:ℚ) - 16| = 16 from by norm_num] at hn
  have h1 : 16 * (1 - (15/16:ℚ)^m) - 16 * 16 / 17 ≥ 1/2 := by linarith
  have habs : |16 * (1 - (15/16:ℚ)^m) - 16 * 16 / 17| ≥ 1/2 :=
    le_trans h1 (le_abs_self _)
  linarith

/-- C2 as amended: the jitter starts at 0 and is updated per probe by
`J ← J + (|rtt_i - rtt_(i-1)| - J)/16` (no update on the first probe); over
constant round-trip times it converges to 0; over round-trip times
alternating between `r1` and `r2` it converges to the fixed point
`|r1 - r2|` of that recurrence (not `|r1 - r2|·16/17`). -/
theorem C2_jitter :
    SyncState.start.jitter = 0 ∧
    (∀ (st : SyncState) (t1 t2 t3 t4 : ℚ), st.samples = [] →
       (processPong st t1 t2 t3 t4).jitter = st.jitter) ∧
    (∀ (st : SyncState) (t1 t2 t3 t4 : ℚ) (prev : SyncSample),
       st.samples.getLast? = some prev →
       (processPong st t1 t2 t3 t4).jitter =
         st.jitter + (|max 0 ((t4 - t1) - (t3 - t2)) - prev.rtt| - st.jitter) / 16) ∧
    (∀ r : ℚ, 0 ≤ r → ConvergesTo (fun n => (runWith (fun _ => r) n).jitter) 0) ∧
    (∀ r1 r2 : ℚ, 0 ≤ r1 → 0 ≤ r2 →
       ConvergesTo (fun n => (runWith (altSeq r1 r2) n).jitter) |r1 - r2|) := by
  refine ⟨rfl, ?_, ?_, const_jitter_converges, alt_jitter_converges⟩
  · intro st t1 t2 t3 t4 h
    rw [processPong_jitter]
    simp only [h, List.getLast?_nil]
  · intro st t1 t2 t3 t4 prev h
    rw [processPong_jitter]
    simp only [h]

/-- Witness for C2 as amended: the convergence statements at concrete rates,
and both update-rule cases at concrete states. -/
theorem C2_jitter_witness :
    (processPong SyncState.start 0 0 0 0).jitter = SyncState.start.jitter ∧
    (processPong c4base 2000 2105 2105 2010).jitter =
      c4base.jitter + (|max 0 ((2010 - 2000) - (2105 - 2105)) - (100:ℚ)| - c4base.jitter) / 16 ∧
    ConvergesTo (fun n => (runWith (fun _ => (7:ℚ)) n).jitter) 0 ∧
    ConvergesTo (fun n => (runWith (altSeq 3 1) n).jitter) |(3:ℚ) - 1| := by
  refine ⟨C2_jitter.2.1 SyncState.start 0 0 0 0 rfl, ?_,
    C2_jitter.2.2.2.1 7 (by norm_num), C2_jitter.2.2.2.2 3 1 (by norm_num) (by norm_num)⟩
  have h := C2_jitter.2.2.1 c4base 2000 2105 2105 2010 ⟨100, 0, 100⟩ rfl
  exact h

end SyncRoom
